import Mathlib

/-!
# PDF-Summarizer-Web-App: upload validation, request pipeline and response parser

A shallow embedding of
* `src/components/UploadArea.js` (`validateFile`, `handleFile`),
* `src/pages/index.js` (`onSummarize`),
* `src/pages/api/summarize.js` (`buildPrompt`, `parseAIResponse`, `callAI`, `handler`).

JavaScript strings are sequences of UTF-16 code units; they are embedded as lists of
natural numbers, one per code unit (numbers above `0xFFFF` stand for no code unit and
are treated like any other non-whitespace, non-letter unit).  String literals of the
source are written `js "..."`; every literal of the source consists of characters of
the Basic Multilingual Plane, for which the code unit is the code point.

Asynchronous steps are embedded by their outcome: the result of a file read, of a
`fetch`, of the text extraction is an argument of the function that awaits it, and the
function returns, next to its value, the list of its observable effects in order.
-/

namespace PdfSummarizer

/-! ## Strings -/

/-- A JavaScript string: its UTF-16 code units. -/
abbrev Str := List Nat

/-- A source literal as a JavaScript string (literals here are BMP-only). -/
def js (s : String) : Str := s.toList.map Char.toNat

/-- The ECMAScript `WhiteSpace` and `LineTerminator` code units: the set removed by
`String.prototype.trim` and matched by the regular-expression class `\s`. -/
def isWhiteSpace (c : Nat) : Bool :=
  c == 9 || c == 10 || c == 11 || c == 12 || c == 13 || c == 32 || c == 160 ||
  c == 0x1680 || (0x2000 ≤ c && c ≤ 0x200A) || c == 0x2028 || c == 0x2029 ||
  c == 0x202F || c == 0x205F || c == 0x3000 || c == 0xFEFF

/-- Embeds `String.prototype.trimStart`. -/
def trimStart (s : Str) : Str := s.dropWhile isWhiteSpace

/-- Embeds `String.prototype.trimEnd`. -/
def trimEnd (s : Str) : Str := (s.reverse.dropWhile isWhiteSpace).reverse

/-- Embeds `String.prototype.trim`. -/
def trim (s : Str) : Str := trimEnd (trimStart s)

/-- Embeds `s.split(sep)` for a separator that matches exactly one code unit (a one-character
string, or a regular expression such as `/\n|\r/`): the pieces between separators, in
order.  The empty string splits into one empty piece. -/
def split (isSep : Nat → Bool) : Str → List Str
  | [] => [[]]
  | c :: cs =>
    if isSep c then [] :: split isSep cs
    else
      match split isSep cs with
      | [] => [[c]]
      | l :: ls => (c :: l) :: ls

/-- Embeds `pieces.join(sep)`. -/
def join (sep : Str) (pieces : List Str) : Str := sep.intercalate pieces

/-! ## Regular-expression matching

The regular expressions of `parseAIResponse` are embedded by their backtracking
semantics: a matcher takes the input that remains at the current position and returns
the result of the first successful alternative, in the order in which the ECMAScript
matcher tries them. -/

/-- Case canonicalisation of the `i` flag (without the `u` flag) restricted to what can
match an ASCII pattern character: `a`-`z` map to `A`-`Z`; a code unit of 128 or more
never canonicalises to an ASCII one, so it is left as it is. -/
def canon (c : Nat) : Nat := if 97 ≤ c ∧ c ≤ 122 then c - 32 else c

/-- A literal pattern under the `i` flag, matched at the start of the input: the input
that remains after it, or `none`. -/
def matchLit : Str → Str → Option Str
  | [], s => some s
  | _ :: _, [] => none
  | p :: ps, c :: cs => if canon c = canon p then matchLit ps cs else none

/-- A greedy `x*` where `x` matches one code unit satisfying `p`, followed by the rest of
the pattern `k`: one more code unit is consumed first, and when the rest then fails
the matcher backtracks and continues from here. -/
def greedyStar {α : Type} (p : Nat → Bool) (k : Str → Option α) : Str → Option α
  | [] => k []
  | c :: cs =>
    if p c then
      match greedyStar p k cs with
      | some r => some r
      | none => k (c :: cs)
    else k (c :: cs)

/-- A greedy `x+`: one code unit satisfying `p`, then a greedy `x*`. -/
def greedyPlus {α : Type} (p : Nat → Bool) (k : Str → Option α) : Str → Option α
  | [] => none
  | c :: cs => if p c then greedyStar p k cs else none

/-- The lazy capture group `([\s\S]*?)` followed by the literal `pat`: the shortest
prefix of the input after which `pat` matches. -/
def lazyUntil (pat : Str) : Str → Option Str
  | [] => if (matchLit pat []).isSome then some [] else none
  | c :: cs =>
    if (matchLit pat (c :: cs)).isSome then some []
    else (lazyUntil pat cs).map (c :: ·)

/-- An unanchored search, as done by `String.prototype.match` without the `g` flag: the
match at the leftmost position where the pattern matches. -/
def search {α : Type} (m : Str → Option α) : Str → Option α
  | [] => m []
  | c :: cs =>
    match m (c :: cs) with
    | some r => some r
    | none => search m cs

/-! ## `src/components/UploadArea.js`: `validateFile` -/

/-- The metadata of a browser `File` that the validator reads. -/
structure File where
  type : Str
  size : Nat
  deriving DecidableEq, Repr

/-- Embeds `validateFile(file)`: `none` is JavaScript `null` (valid), `some msg` a rejection
reason.  An absent candidate (`undefined`, as `files[0]` of an empty list) is `none`. -/
def validateFile (file : Option File) : Option Str :=
  match file with
  | none => some (js "No file selected.")
  | some f =>
    if f.type ≠ js "application/pdf" then some (js "Please upload a PDF file")
    else if f.size > 10 * 1024 * 1024 then some (js "File must be under 10MB")
    else none

/-! ## `src/pages/api/summarize.js`: `parseAIResponse` -/

/-- The literal `SUMMARY:`. -/
def SUMMARY : Str := js "SUMMARY:"

/-- The literal `KEY POINTS:`. -/
def KEY_POINTS : Str := js "KEY POINTS:"

/-- The literal `\n\nKEY POINTS:` that ends the summary pattern. -/
def NL_NL_KEY_POINTS : Str := js "\n\nKEY POINTS:"

/-- Embeds `/SUMMARY:\s*([\s\S]*?)\n\nKEY POINTS:/i` at a fixed position: capture group 1. -/
def summaryAt (s : Str) : Option Str :=
  (matchLit SUMMARY s).bind (greedyStar isWhiteSpace (lazyUntil NL_NL_KEY_POINTS))

/-- Embeds `text.match(/SUMMARY:\s*([\s\S]*?)\n\nKEY POINTS:/i)`: capture group 1 of the
leftmost match, `none` for `null`. -/
def summaryMatch (text : Str) : Option Str := search summaryAt text

/-- Embeds `/KEY POINTS:\s*([\s\S]*)/i` at a fixed position: capture group 1.  The greedy
`[\s\S]*` at the end of the pattern takes all that remains. -/
def keyPointsAt (s : Str) : Option Str :=
  (matchLit KEY_POINTS s).bind (greedyStar isWhiteSpace some)

/-- Embeds `text.match(/KEY POINTS:\s*([\s\S]*)/i)`: capture group 1 of the leftmost match. -/
def keyPointsMatch (text : Str) : Option Str := search keyPointsAt text

/-- Embeds `/^\s*-\s?/` at the start of a line: the input after the match. -/
def bulletAt (l : Str) : Option Str :=
  greedyStar isWhiteSpace
    (fun r =>
      match r with
      | 45 :: c :: r2 => if isWhiteSpace c then some r2 else some (c :: r2)
      | 45 :: [] => some []
      | _ => none) l

/-- Embeds `l.replace(/^\s*-\s?/, '')`: the line without its leading bullet marker, or the
line itself when the pattern does not match. -/
def stripBullet (l : Str) : Str := (bulletAt l).getD l

/-- The sentence terminators of the class `[.!?]`. -/
def isTerminator (c : Nat) : Bool := c == 46 || c == 33 || c == 63

/-- Embeds `/[^.!?]+[.!?]+/` at a fixed position: the input after the match. -/
def sentenceAt (s : Str) : Option Str :=
  greedyPlus (fun c => !isTerminator c) (greedyPlus isTerminator some) s

/-- The matches of `/[^.!?]+[.!?]+/g` in order.  The first argument counts the code
units still covered by the previous match: the search resumes where that match ended.
At a position where the pattern does not match the search moves on by one code unit. -/
def sentencesFrom : Nat → Str → List Str
  | _, [] => []
  | n + 1, _ :: cs => sentencesFrom n cs
  | 0, c :: cs =>
    match sentenceAt (c :: cs) with
    | some rest =>
      let len := (c :: cs).length - rest.length
      (c :: cs).take len :: sentencesFrom (len - 1) cs
    | none => sentencesFrom 0 cs

/-- Embeds `text.match(/[^.!?]+[.!?]+/g) || []`. -/
def sentences (text : Str) : List Str := sentencesFrom 0 text

/-- The value returned by `parseAIResponse`. -/
structure Parsed where
  summary : Str
  keyPoints : List Str
  deriving DecidableEq, Repr

/-- The summary of `parseAIResponse`: capture group 1 trimmed, or the first five lines
joined by spaces and trimmed. -/
def parseSummary (text : Str) : Str :=
  match summaryMatch text with
  | some m => trim m
  | none => trim (join (js " ") ((split (· == 10) text).take 5))

/-- The key points of `parseAIResponse`. -/
def parseKeyPoints (text : Str) : List Str :=
  match keyPointsMatch text with
  | some kpText =>
    let lines := ((split (fun c => c == 10 || c == 13) kpText).map
      (fun l => trim (stripBullet l))).filter (fun l => !l.isEmpty)
    lines.take 5
  | none => ((sentences text).take 5).map trim

/-- Embeds `parseAIResponse(text)`. -/
def parseAIResponse (text : Str) : Parsed :=
  { summary := parseSummary text, keyPoints := parseKeyPoints text }

/-- Embeds `buildPrompt(text, language)`. -/
def buildPrompt (text : Str) (language : Str) : Str :=
  let langNote := if language = js "fr" then js "Répondez en français." else js "Respond in English."
  js "System: You are an expert document summarizer. Provide clear, concise summaries of technical and non-technical documents.\n\nUser Request:\n"
    ++ langNote
    ++ js " Please summarize the following PDF content in 2-3 sentences (200-300 words total). Then list 3-5 key points as bullet points.\n\n"
    ++ text
    ++ js "\n\nFormat your response as:\nSUMMARY:\n[summary here]\n\nKEY POINTS:\n- [point 1]\n- [point 2]\n- [point 3]"

/-! ## Thrown values and truthiness -/

/-- A value thrown or rejected with: a primitive string, or an `Error` object with its
`name` and `message`. -/
inductive Thrown where
  | str (s : Str)
  | error (name : Str) (message : Str)
  deriving DecidableEq, Repr

/-- Embeds `e.name`, absent on a primitive string. -/
def Thrown.name : Thrown → Option Str
  | .str _ => none
  | .error n _ => some n

/-- Embeds `e.message`, absent on a primitive string. -/
def Thrown.message : Thrown → Option Str
  | .str _ => none
  | .error _ m => some m

/-- Embeds `new Error(message)`. -/
def newError (message : Str) : Thrown := .error (js "Error") message

/-- Embeds `a || b` for a possibly absent string `a`: `a` when it is present and non-empty. -/
def orElseStr (a : Option Str) (b : Str) : Str :=
  match a with
  | some (c :: cs) => c :: cs
  | _ => b

/-- Truthiness of a possibly absent string. -/
def truthy (a : Option Str) : Bool :=
  match a with
  | some (_ :: _) => true
  | _ => false

/-- The JSON object of a response of `/api/summarize`, each field possibly absent. -/
structure ResponseBody where
  error : Option Str
  summary : Option Str
  keyPoints : Option (List Str)
  deriving DecidableEq, Repr

/-! ## `src/components/UploadArea.js`: `handleFile` -/

/-- What the `FileReader` does with a file: `onload` with `reader.result`, or `onerror`. -/
inductive ReadOutcome where
  | loaded (result : Str)
  | failed
  deriving DecidableEq, Repr

/-- The observable effects of `handleFile`, in order. -/
inductive UploadEvent where
  | setError (msg : Str)
  | setLoading (b : Bool)
  | readAsDataURL (file : Option File)
  | onSummarize (base64 : Option Str) (language : Str)
  | consoleError (e : Thrown)
  deriving DecidableEq, Repr

/-- The `catch` block of `handleFile`. -/
def handleFileCatch (e : Thrown) : List UploadEvent :=
  [ .consoleError e,
    .setError (match e with
      | .str s => s
      | .error _ _ => js "Failed to summarize. Please try again."),
    .setLoading false ]

/-- Embeds `handleFile(file)`: the effects in order and the value returned (`none` for
`undefined`).  `onSummarize` is the component property called with the encoded payload
and the language; `read` is the behaviour of the `FileReader`. -/
def handleFile {R : Type} (onSummarize : Option Str → Str → Except Thrown R)
    (read : File → ReadOutcome) (language : Str) (file : Option File) :
    List UploadEvent × Option R :=
  let err := validateFile file
  if truthy err then
    ([.setError (js ""), .setError (err.getD [])], none)
  else
    let start : List UploadEvent := [.setError (js ""), .setLoading true, .readAsDataURL file]
    match file with
    | none =>
      -- `readAsDataURL(undefined)` throws a `TypeError` inside the promise executor
      (start ++ handleFileCatch
        (.error (js "TypeError") (js "Failed to execute readAsDataURL on FileReader")), none)
    | some f =>
      match read f with
      | .failed => (start ++ handleFileCatch (.str (js "Failed to read file")), none)
      | .loaded result =>
        let base64 := (split (· == 44) result)[1]?
        match onSummarize base64 language with
        | .ok res => (start ++ [.onSummarize base64 language, .setLoading false], some res)
        | .error e => (start ++ [.onSummarize base64 language] ++ handleFileCatch e, none)

/-- The `error` state of the component after a run of effects. -/
def errorSlot (init : Str) (evs : List UploadEvent) : Str :=
  evs.foldl (fun cur ev => match ev with | .setError m => m | _ => cur) init

/-- The `loading` state of the component after a run of effects. -/
def loadingSlot (init : Bool) (evs : List UploadEvent) : Bool :=
  evs.foldl (fun cur ev => match ev with | .setLoading b => b | _ => cur) init

/-! ## `src/pages/index.js`: `onSummarize` -/

/-- What `fetch('/api/summarize', ...)` does: it rejects (a network failure, or an
`AbortError` when the 30-second timer aborts it), or it resolves with a response whose
`ok` flag and `json()` result are given. -/
inductive FetchOutcome where
  | rejected (e : Thrown)
  | response (ok : Bool) (json : Except Thrown ResponseBody)

/-- The observable effects of `onSummarize`, in order. -/
inductive PageEvent where
  | setError (msg : Str)
  | setLoading (b : Bool)
  | setSummary (s : Str)
  | setKeyPoints (ks : List Str)
  | fetch (fileBase64 : Option Str) (language : Str)
  | consoleError (e : Thrown)
  deriving DecidableEq, Repr

/-- The `catch` block of `onSummarize`; the error is thrown again. -/
def onSummarizeCatch (e : Thrown) : List PageEvent :=
  [ .consoleError e,
    (if e.name = some (js "AbortError") then .setError (js "Processing timed out. Please try again.")
     else .setError (orElseStr e.message (js "Connection error. Please check your internet."))),
    .setLoading false ]

/-- Embeds `onSummarize(fileBase64, language)`: the effects in order and the outcome. -/
def onSummarize (fetch : Option Str → Str → FetchOutcome) (fileBase64 : Option Str)
    (language : Str) : List PageEvent × Except Thrown ResponseBody :=
  let start : List PageEvent :=
    [.setError (js ""), .setLoading true, .setSummary (js ""), .setKeyPoints [],
     .fetch fileBase64 language]
  match fetch fileBase64 language with
  | .rejected e => (start ++ onSummarizeCatch e, .error e)
  | .response false json =>
    let err : Option Str := match json with
      | .ok b => b.error
      | .error _ => none
    let e := newError (orElseStr err (js "Failed to summarize. Please try again."))
    (start ++ onSummarizeCatch e, .error e)
  | .response true (.error e) => (start ++ onSummarizeCatch e, .error e)
  | .response true (.ok data) =>
    (start ++ [.setSummary (orElseStr data.summary (js "")),
               .setKeyPoints (data.keyPoints.getD []), .setLoading false], .ok data)

/-! ## `src/pages/api/summarize.js`: `callAI` and `handler` -/

/-- The two environment variables read by `callAI`. -/
structure Env where
  GOOGLE_API_KEY : Option Str
  google_gemini_api_key : Option Str
  deriving DecidableEq, Repr

/-- What the provider request does: `fetch` rejects (with an `AbortError` when the timer
aborts it), or resolves with a response: its `ok` flag, its status, the result of
`res.text()` (`none` when that rejects) and the result of `res.json()`, reduced to the
value at `candidates[0].content.parts[0].text` when it is there. -/
inductive ProviderOutcome where
  | rejected (e : Thrown)
  | response (ok : Bool) (status : Nat) (text : Option Str) (json : Except Thrown (Option Str))

/-- The observable effects of `handler`, in order. -/
inductive ServerEvent where
  | pdf (fileBase64 : Str)
  | callAI (prompt : Str) (timeoutMs : Nat)
  | fetchProvider (apiKey : Str) (prompt : Str)
  | consoleError (e : Thrown)
  deriving DecidableEq, Repr

/-- Embeds `callAI(prompt, timeoutMs)`: the effects in order and the outcome. -/
def callAI (env : Env) (provider : Str → ProviderOutcome) (prompt : Str) (timeoutMs : Nat) :
    List ServerEvent × Except Thrown Str :=
  let entry : List ServerEvent := [.callAI prompt timeoutMs]
  let apiKey := orElseStr env.GOOGLE_API_KEY (orElseStr env.google_gemini_api_key [])
  if apiKey = [] then
    (entry, .error (newError (js "Google Gemini API key not configured on the server. Please set GOOGLE_API_KEY in your .env.local and restart the dev server.")))
  else
    let rethrow (e : Thrown) : Thrown :=
      if e.name = some (js "AbortError") then newError (js "AI request timed out") else e
    let evs := entry ++ [.fetchProvider apiKey prompt]
    match provider prompt with
    | .rejected e => (evs, .error (rethrow e))
    | .response false status text _ =>
      (evs, .error (rethrow (newError
        (js "Gemini provider error: " ++ js (toString status) ++ js " " ++ text.getD []))))
    | .response true _ _ (.error e) => (evs, .error (rethrow e))
    | .response true _ _ (.ok aiText) => (evs, .ok (orElseStr aiText []))

/-- The JSON body of a request, each field possibly absent. -/
structure RequestBody where
  fileBase64 : Option Str
  language : Option Str
  deriving DecidableEq, Repr

/-- The part of the request that `handler` reads. -/
structure Request where
  method : Str
  body : Option RequestBody
  deriving DecidableEq, Repr

/-- What `handler` sends: `res.status(status).json(body)`. -/
structure Response where
  status : Nat
  body : ResponseBody
  deriving DecidableEq, Repr

/-- The body `{ error: msg }`. -/
def errorBody (msg : Str) : ResponseBody := { error := some msg, summary := none, keyPoints := none }

/-- Embeds `handler(req, res)`: the response sent and the effects in order.  `pdf` is the
text-extraction library applied to the decoded payload: it throws, or returns `data`
(`none` when falsy) whose `text` may be absent. -/
def handler (env : Env) (pdf : Str → Except Thrown (Option (Option Str)))
    (provider : Str → ProviderOutcome) (req : Request) : Response × List ServerEvent :=
  if req.method ≠ js "POST" then
    ({ status := 405, body := errorBody (js "Method not allowed") }, [])
  else
    let body := req.body.getD { fileBase64 := none, language := none }
    let language := body.language.getD (js "en")
    match body.fileBase64 with
    | none => ({ status := 400, body := errorBody (js "Missing file") }, [])
    | some [] => ({ status := 400, body := errorBody (js "Missing file") }, [])
    | some (b :: bs) =>
      let fileBase64 := b :: bs
      let caught (evs : List ServerEvent) (e : Thrown) : Response × List ServerEvent :=
        ({ status := 500, body := errorBody (orElseStr e.message (js "Failed to summarize")) },
          evs ++ [.consoleError e])
      match pdf fileBase64 with
      | .error e => caught [.pdf fileBase64] e
      | .ok data =>
        let text : Str := match data with
          | some (some (c :: cs)) => trim (c :: cs)
          | _ => []
        if text = [] then
          ({ status := 400, body := errorBody (js "Could not extract text from PDF") },
            [.pdf fileBase64])
        else
          let prompt := buildPrompt text language
          match callAI env provider prompt 30000 with
          | (evs, .error e) => caught (.pdf fileBase64 :: evs) e
          | (evs, .ok aiRaw) =>
            let parsed := parseAIResponse (orElseStr (some aiRaw) [])
            ({ status := 200,
               body := { error := none, summary := some parsed.summary,
                         keyPoints := some parsed.keyPoints } },
              .pdf fileBase64 :: evs)

/-! ## Notions used to state the properties -/

/-- The offset of the first occurrence of `pat`, under the `i` flag, in `s`. -/
def firstIn (pat : Str) : Str → Option Nat
  | [] => if (matchLit pat []).isSome then some 0 else none
  | c :: cs =>
    if (matchLit pat (c :: cs)).isSome then some 0
    else (firstIn pat cs).map (· + 1)

/-- Whether `pat` occurs, under the `i` flag, somewhere in `s`. -/
def occursIn (pat : Str) (s : Str) : Bool :=
  s.tails.any (fun t => (matchLit pat t).isSome)

/-- Whether `s` has neither leading nor trailing whitespace. -/
def noOuterSpace (s : Str) : Bool :=
  s.head?.all (fun c => !isWhiteSpace c) && s.getLast?.all (fun c => !isWhiteSpace c)

/-- The provider text in the format requested by the prompt: the summary `s` and the
points as a bullet list. -/
def wellFormed (s : Str) (points : List Str) : Str :=
  js "SUMMARY:\n" ++ s ++ js "\n\nKEY POINTS:\n" ++ join (js "\n") (points.map (js "- " ++ ·))

/-- The offset, counted from the end of `SUMMARY:`, of the `\n\nKEY POINTS:` that ends
the captured summary: the first one that starts at or after the first non-whitespace
code unit, and when there is none, the first one at all. -/
def closingMarker (after : Str) : Option Nat :=
  let r := (after.takeWhile isWhiteSpace).length
  match firstIn NL_NL_KEY_POINTS (after.drop r) with
  | some j => some (r + j)
  | none => firstIn NL_NL_KEY_POINTS after

/-- Whether the summary pattern is present: `SUMMARY:` occurs somewhere in the text and
`\n\nKEY POINTS:` occurs somewhere after it (both under the `i` flag). -/
def summaryPatternIn (text : Str) : Bool :=
  text.tails.any (fun t =>
    match matchLit SUMMARY t with
    | some r => occursIn NL_NL_KEY_POINTS r
    | none => false)

/-- A server that answers every request with status 400 and the body
`{ error: "Could not extract text from PDF" }`, as `handler` does for a PDF without
text. -/
def extractionFailure : Option Str → Str → FetchOutcome :=
  fun _ _ => FetchOutcome.response false (Except.ok (errorBody (js "Could not extract text from PDF")))

/-! ## Literals -/

theorem SUMMARY_eq : SUMMARY = [83, 85, 77, 77, 65, 82, 89, 58] := by decide

theorem KEY_POINTS_eq : KEY_POINTS = [75, 69, 89, 32, 80, 79, 73, 78, 84, 83, 58] := by decide

theorem NL_NL_KEY_POINTS_eq : NL_NL_KEY_POINTS = 10 :: 10 :: KEY_POINTS := by decide

/-! ## `validateFile` -/

/-- C1: `validateFile` returns exactly one outcome in the fixed order absent, type,
size, valid; a PDF of exactly 10 MiB is valid and an oversized non-PDF gets the type
message. -/
theorem validateFile_order (file : Option File) :
    (file = none → validateFile file = some (js "No file selected.")) ∧
    (∀ f, file = some f → f.type ≠ js "application/pdf" →
      validateFile file = some (js "Please upload a PDF file")) ∧
    (∀ f, file = some f → f.type = js "application/pdf" → f.size > 10 * 1024 * 1024 →
      validateFile file = some (js "File must be under 10MB")) ∧
    (∀ f, file = some f → f.type = js "application/pdf" → f.size ≤ 10 * 1024 * 1024 →
      validateFile file = none) := by
  refine ⟨?_, ?_, ?_, ?_⟩
  · rintro rfl
    rfl
  · rintro f rfl ht
    simp [validateFile, ht]
  · rintro f rfl ht hs
    simp only [validateFile, ht, ne_eq, not_true_eq_false, if_false, if_pos hs]
  · rintro f rfl ht hs
    have hs2 : ¬ f.size > 10 * 1024 * 1024 := Nat.not_lt.mpr hs
    simp only [validateFile, ht, ne_eq, not_true_eq_false, if_false, if_neg hs2]

/-- C1 at concrete candidates: no file, an oversized non-PDF, an oversized PDF, and a
PDF of exactly 10 MiB. -/
theorem validateFile_order_witness :
    validateFile none = some (js "No file selected.") ∧
    validateFile (some ⟨js "image/png", 10 * 1024 * 1024 + 1⟩)
      = some (js "Please upload a PDF file") ∧
    validateFile (some ⟨js "application/pdf", 10 * 1024 * 1024 + 1⟩)
      = some (js "File must be under 10MB") ∧
    validateFile (some ⟨js "application/pdf", 10 * 1024 * 1024⟩) = none :=
  ⟨(validateFile_order none).1 rfl,
   (validateFile_order (some ⟨js "image/png", 10 * 1024 * 1024 + 1⟩)).2.1 _ rfl (by decide),
   (validateFile_order (some ⟨js "application/pdf", 10 * 1024 * 1024 + 1⟩)).2.2.1 _ rfl
     (by decide) (by decide),
   (validateFile_order (some ⟨js "application/pdf", 10 * 1024 * 1024⟩)).2.2.2 _ rfl
     (by decide) (by decide)⟩

/-! ## `handleFile` -/

theorem validateFile_reason_ne_nil (file : Option File) (reason : Str)
    (h : validateFile file = some reason) : reason ≠ [] := by
  unfold validateFile at h
  split at h
  · cases h; decide
  · split at h
    · cases h; decide
    · split at h
      · cases h; decide
      · cases h

theorem truthy_of_ne_nil (reason : Str) (h : reason ≠ []) : truthy (some reason) = true := by
  cases reason with
  | nil => exact absurd rfl h
  | cons c cs => rfl

/-- C9: for a candidate that `validateFile` rejects, `handleFile` performs exactly the
two effects "clear the error" and "set the error to the rejection reason": the
pipeline is not invoked, the read is not started, loading is never set, and the error
slot ends up holding the reason. -/
theorem handleFile_rejected {R : Type} (onSummarize : Option Str → Str → Except Thrown R)
    (read : File → ReadOutcome) (language : Str) (file : Option File) (reason : Str)
    (init : Str) (h : validateFile file = some reason) :
    (handleFile onSummarize read language file).1
        = [UploadEvent.setError (js ""), UploadEvent.setError reason] ∧
    (∀ b l, UploadEvent.onSummarize b l ∉ (handleFile onSummarize read language file).1) ∧
    (∀ f, UploadEvent.readAsDataURL f ∉ (handleFile onSummarize read language file).1) ∧
    (∀ v, UploadEvent.setLoading v ∉ (handleFile onSummarize read language file).1) ∧
    errorSlot init (handleFile onSummarize read language file).1 = reason := by
  have ht : truthy (some reason) = true :=
    truthy_of_ne_nil reason (validateFile_reason_ne_nil file reason h)
  have hev : (handleFile onSummarize read language file).1
      = [UploadEvent.setError (js ""), UploadEvent.setError reason] := by
    simp only [handleFile, h, ht, if_true, Option.getD_some]
  rw [hev]
  refine ⟨rfl, ?_, ?_, ?_, ?_⟩
  · intro b l; simp
  · intro f; simp
  · intro v; simp
  · simp [errorSlot]

/-- C9 at an oversized PDF, with a pipeline and a reader that would succeed. -/
theorem handleFile_rejected_witness :
    (handleFile (fun _ _ => Except.ok ()) (fun _ => ReadOutcome.loaded (js "data:,QQ=="))
        (js "en") (some ⟨js "application/pdf", 10 * 1024 * 1024 + 1⟩)).1
      = [UploadEvent.setError (js ""), UploadEvent.setError (js "File must be under 10MB")] ∧
    errorSlot (js "")
      (handleFile (fun _ _ => Except.ok ()) (fun _ => ReadOutcome.loaded (js "data:,QQ=="))
        (js "en") (some ⟨js "application/pdf", 10 * 1024 * 1024 + 1⟩)).1
      = js "File must be under 10MB" :=
  have h := handleFile_rejected (fun _ _ => Except.ok ())
    (fun _ => ReadOutcome.loaded (js "data:,QQ=="))
    (js "en") (some ⟨js "application/pdf", 10 * 1024 * 1024 + 1⟩)
    (js "File must be under 10MB") (js "") (by decide)
  ⟨h.1, h.2.2.2.2⟩

/-- C7 (as the code has it): when the pipeline call inside `handleFile` throws, the
error slot is set to the thrown value itself when that is a string, and to the generic
message for every `Error` object, whatever its message; loading is cleared. -/
theorem handleFile_pipeline_error {R : Type} (onSummarize : Option Str → Str → Except Thrown R)
    (read : File → ReadOutcome) (language : Str) (f : File) (result : Str) (e : Thrown)
    (init : Str) (hv : validateFile (some f) = none) (hr : read f = ReadOutcome.loaded result)
    (he : onSummarize ((split (· == 44) result)[1]?) language = Except.error e) :
    (∀ s, e = Thrown.str s →
      errorSlot init (handleFile onSummarize read language (some f)).1 = s) ∧
    (∀ n m, e = Thrown.error n m →
      errorSlot init (handleFile onSummarize read language (some f)).1
        = js "Failed to summarize. Please try again.") ∧
    loadingSlot true (handleFile onSummarize read language (some f)).1 = false := by
  have ht : truthy (validateFile (some f)) = false := by rw [hv]; rfl
  have hev : (handleFile onSummarize read language (some f)).1
      = [UploadEvent.setError (js ""), UploadEvent.setLoading true,
         UploadEvent.readAsDataURL (some f),
         UploadEvent.onSummarize ((split (· == 44) result)[1]?) language]
        ++ handleFileCatch e := by
    simp [handleFile, ht, hr, he]
  rw [hev]
  refine ⟨?_, ?_, ?_⟩
  · rintro s rfl
    simp [errorSlot, handleFileCatch]
  · rintro n m rfl
    simp [errorSlot, handleFileCatch]
  · simp [loadingSlot, handleFileCatch]

/-- C7 as stated fails: `onSummarize` throws an `Error` whose message is
`Could not extract text from PDF`, and the upload component shows the generic
message instead of it. -/
theorem handleFile_error_message_counterexample :
    (onSummarize extractionFailure (some (js "QQ==")) (js "en")).2
      = Except.error (Thrown.error (js "Error") (js "Could not extract text from PDF")) ∧
    errorSlot (js "")
      (handleFile (fun b l => (onSummarize extractionFailure b l).2)
        (fun _ => ReadOutcome.loaded (js "data:application/pdf;base64,QQ=="))
        (js "en") (some ⟨js "application/pdf", 4⟩)).1
      = js "Failed to summarize. Please try again." ∧
    js "Failed to summarize. Please try again." ≠ js "Could not extract text from PDF" :=
  ⟨rfl, by decide, by decide⟩

/-- C7 (as the code has it) at the failed read, a thrown string, and at the `Error`
of the failed extraction. -/
theorem handleFile_pipeline_error_witness :
    errorSlot (js "")
      (handleFile (fun _ _ => (Except.error (Thrown.str (js "offline")) : Except Thrown Unit))
        (fun _ => ReadOutcome.loaded (js "data:application/pdf;base64,QQ=="))
        (js "en") (some ⟨js "application/pdf", 4⟩)).1 = js "offline" :=
  (handleFile_pipeline_error
    (fun _ _ => (Except.error (Thrown.str (js "offline")) : Except Thrown Unit))
    (fun _ => ReadOutcome.loaded (js "data:application/pdf;base64,QQ=="))
    (js "en") ⟨js "application/pdf", 4⟩ (js "data:application/pdf;base64,QQ==")
    (Thrown.str (js "offline")) (js "") (by decide) rfl rfl).1 _ rfl

/-! ## `handler` -/

theorem dropWhile_eq_nil_of_all {p : Nat → Bool} (s : Str) (h : ∀ c ∈ s, p c = true) :
    s.dropWhile p = [] := by
  induction s with
  | nil => rfl
  | cons c cs ih =>
    have hc : p c = true := h c (List.mem_cons_self c cs)
    simp only [List.dropWhile_cons, hc, if_true]
    exact ih (fun d hd => h d (List.mem_cons_of_mem c hd))

theorem trim_eq_nil_of_all (s : Str) (h : ∀ c ∈ s, isWhiteSpace c = true) : trim s = [] := by
  simp [trim, trimStart, trimEnd, dropWhile_eq_nil_of_all s h]

/-- C8: a POST with a non-empty payload whose extraction succeeds with text that is
absent, empty or only whitespace is answered 400 `Could not extract text from PDF`,
and neither `callAI` nor the provider request happens, whatever the language, the
credentials and the provider. -/
theorem handler_no_text (env : Env) (pdf : Str → Except Thrown (Option (Option Str)))
    (provider : Str → ProviderOutcome) (req : Request) (body : RequestBody)
    (fileBase64 : Str) (data : Option (Option Str))
    (hm : req.method = js "POST") (hb : req.body = some body)
    (hf : body.fileBase64 = some fileBase64) (hne : fileBase64 ≠ [])
    (hpdf : pdf fileBase64 = Except.ok data)
    (htext : ∀ t, data = some (some t) → ∀ c ∈ t, isWhiteSpace c = true) :
    (handler env pdf provider req).1
        = { status := 400, body := errorBody (js "Could not extract text from PDF") } ∧
    (handler env pdf provider req).2 = [ServerEvent.pdf fileBase64] ∧
    (∀ p t, ServerEvent.callAI p t ∉ (handler env pdf provider req).2) ∧
    (∀ k p, ServerEvent.fetchProvider k p ∉ (handler env pdf provider req).2) := by
  obtain ⟨b, bs, rfl⟩ : ∃ b bs, fileBase64 = b :: bs := by
    cases fileBase64 with
    | nil => exact absurd rfl hne
    | cons b bs => exact ⟨b, bs, rfl⟩
  have htxt : (match data with
      | some (some (c :: cs)) => trim (c :: cs)
      | _ => ([] : Str)) = [] := by
    match data, htext with
    | none, _ => rfl
    | some none, _ => rfl
    | some (some []), _ => rfl
    | some (some (c :: cs)), ht => exact trim_eq_nil_of_all _ (ht _ rfl)
  have key : handler env pdf provider req
      = ({ status := 400, body := errorBody (js "Could not extract text from PDF") },
         [ServerEvent.pdf (b :: bs)]) := by
    simp only [handler, hm, hb, hf, hpdf, ne_eq, not_true_eq_false, if_false, Option.getD_some,
      htxt, if_true]
  rw [key]
  refine ⟨rfl, rfl, ?_, ?_⟩
  · intro p t; simp
  · intro k p; simp

/-- C8 at a French request whose PDF yields only blanks and line breaks, with a
credential configured and a provider that would answer. -/
theorem handler_no_text_witness :
    (handler ⟨some (js "key"), none⟩ (fun _ => Except.ok (some (some (js " \n\t \r\n"))))
        (fun _ => ProviderOutcome.response true 200 none (Except.ok (some (js "SUMMARY:"))))
        ⟨js "POST", some ⟨some (js "QQ=="), some (js "fr")⟩⟩).1
      = { status := 400, body := errorBody (js "Could not extract text from PDF") } ∧
    (handler ⟨some (js "key"), none⟩ (fun _ => Except.ok (some (some (js " \n\t \r\n"))))
        (fun _ => ProviderOutcome.response true 200 none (Except.ok (some (js "SUMMARY:"))))
        ⟨js "POST", some ⟨some (js "QQ=="), some (js "fr")⟩⟩).2
      = [ServerEvent.pdf (js "QQ==")] :=
  have h := (handler_no_text ⟨some (js "key"), none⟩ (fun _ => Except.ok (some (some (js " \n\t \r\n"))))
    (fun _ => ProviderOutcome.response true 200 none (Except.ok (some (js "SUMMARY:"))))
    ⟨js "POST", some ⟨some (js "QQ=="), some (js "fr")⟩⟩ ⟨some (js "QQ=="), some (js "fr")⟩
    (js "QQ==") (some (some (js " \n\t \r\n"))) rfl rfl rfl (by decide) rfl
    (by
      intro t ht
      cases ht
      decide))
  ⟨h.1, h.2.1⟩

/-! ## `parseAIResponse`: bound on the key points -/

/-- C2: the key points returned by `parseAIResponse` are at most five, on either path. -/
theorem parseAIResponse_keyPoints_le_five (text : Str) :
    (parseAIResponse text).keyPoints.length ≤ 5 := by
  simp only [parseAIResponse, parseKeyPoints]
  split
  · exact List.length_take_le 5 _
  · rw [List.length_map]
    exact List.length_take_le 5 _

/-! ## Trimming -/

theorem trimEnd_eq_rdropWhile (s : Str) : trimEnd s = s.rdropWhile isWhiteSpace := rfl

theorem trim_eq (s : Str) : trim s = (s.dropWhile isWhiteSpace).rdropWhile isWhiteSpace := rfl

theorem noOuterSpace_iff (s : Str) :
    noOuterSpace s = true ↔
      (∀ c, s.head? = some c → isWhiteSpace c = false) ∧
      (∀ c, s.getLast? = some c → isWhiteSpace c = false) := by
  unfold noOuterSpace
  cases hh : s.head? <;> cases hl : s.getLast? <;> simp

theorem noOuterSpace_trim (s : Str) : noOuterSpace (trim s) = true := by
  rw [noOuterSpace_iff]
  constructor
  · intro c hc
    have hne : trim s ≠ [] := by
      intro h
      rw [h] at hc
      cases hc
    have hpre : trim s <+: s.dropWhile isWhiteSpace := List.rdropWhile_prefix _ _
    have hne2 : s.dropWhile isWhiteSpace ≠ [] := by
      intro h
      rw [h] at hpre
      exact hne (List.prefix_nil.mp hpre)
    have hhead := hpre.head hne
    have h1 := List.head_dropWhile_not isWhiteSpace s hne2
    have h2 : (trim s).head? = some ((trim s).head hne) := List.head?_eq_head hne
    rw [h2] at hc
    cases hc
    rw [hhead]
    exact h1
  · intro c hc
    have hne : trim s ≠ [] := by
      intro h
      rw [h] at hc
      cases hc
    have h1 := List.rdropWhile_last_not isWhiteSpace (s.dropWhile isWhiteSpace) hne
    have h2 : (trim s).getLast? = some ((trim s).getLast hne) := List.getLast?_eq_getLast _ hne
    rw [h2] at hc
    cases hc
    simpa using h1

theorem trim_eq_self (s : Str) (h : noOuterSpace s = true) : trim s = s := by
  rw [noOuterSpace_iff] at h
  have h1 : s.dropWhile isWhiteSpace = s := by
    cases s with
    | nil => rfl
    | cons c cs =>
      have := h.1 c rfl
      simp [List.dropWhile_cons, this]
  rw [trim_eq, h1, List.rdropWhile_eq_self_iff]
  intro hl
  have := h.2 _ (List.getLast?_eq_getLast s hl)
  simp [this]

theorem trim_append_left (w x : Str) (hw : ∀ c ∈ w, isWhiteSpace c = true) :
    trim (w ++ x) = trim x := by
  induction w with
  | nil => rfl
  | cons c cs ih =>
    have hc : isWhiteSpace c = true := hw c (List.mem_cons_self c cs)
    have : trim (c :: (cs ++ x)) = trim (cs ++ x) := by
      simp only [trim_eq, List.dropWhile_cons, hc, if_true]
    rw [List.cons_append, this]
    exact ih (fun d hd => hw d (List.mem_cons_of_mem c hd))

theorem trim_ne_nil (s : Str) (hs : s ≠ [])
    (hlast : isWhiteSpace (s.getLast hs) = false) : trim s ≠ [] := by
  have hd : s.dropWhile isWhiteSpace ≠ [] := by
    intro h
    rw [List.dropWhile_eq_nil_iff] at h
    have := h _ (List.getLast_mem hs)
    rw [hlast] at this
    cases this
  have hsuf : s.dropWhile isWhiteSpace <:+ s := List.dropWhile_suffix _
  have hl : (s.dropWhile isWhiteSpace).getLast hd = s.getLast hs := hsuf.getLast hd
  have : (s.dropWhile isWhiteSpace).rdropWhile isWhiteSpace = s.dropWhile isWhiteSpace := by
    rw [List.rdropWhile_eq_self_iff]
    intro _
    rw [hl, hlast]
    simp
  rw [trim_eq, this]
  exact hd

/-! ## The matchers -/

theorem greedyStar_some (p : Nat → Bool) (s : Str) :
    greedyStar p some s = some (s.dropWhile p) := by
  induction s with
  | nil => rfl
  | cons c cs ih =>
    by_cases h : p c = true
    · simp [greedyStar, h, ih, List.dropWhile_cons]
    · simp [greedyStar, h, List.dropWhile_cons]

theorem greedyStar_sound {α : Type} (p : Nat → Bool) (k : Str → Option α) (s : Str) (r : α)
    (h : greedyStar p k s = some r) :
    ∃ a b, s = a ++ b ∧ (∀ c ∈ a, p c = true) ∧ k b = some r := by
  induction s with
  | nil => exact ⟨[], [], rfl, by simp, h⟩
  | cons c cs ih =>
    unfold greedyStar at h
    by_cases hp : p c = true
    · rw [if_pos hp] at h
      cases hg : greedyStar p k cs with
      | none =>
        rw [hg] at h
        exact ⟨[], c :: cs, rfl, by simp, h⟩
      | some r2 =>
        rw [hg] at h
        cases h
        obtain ⟨a, b, hab, ha, hk⟩ := ih hg
        refine ⟨c :: a, b, by rw [hab]; rfl, ?_, hk⟩
        intro d hd
        rcases List.mem_cons.mp hd with rfl | hd
        · exact hp
        · exact ha d hd
    · rw [if_neg hp] at h
      exact ⟨[], c :: cs, rfl, by simp, h⟩

theorem greedyPlus_sound {α : Type} (p : Nat → Bool) (k : Str → Option α) (s : Str) (r : α)
    (h : greedyPlus p k s = some r) :
    ∃ a b, s = a ++ b ∧ a ≠ [] ∧ (∀ c ∈ a, p c = true) ∧ k b = some r := by
  cases s with
  | nil => cases h
  | cons c cs =>
    simp only [greedyPlus] at h
    by_cases hp : p c = true
    · rw [if_pos hp] at h
      obtain ⟨a, b, hab, ha, hk⟩ := greedyStar_sound p k cs r h
      refine ⟨c :: a, b, by rw [hab]; rfl, by simp, ?_, hk⟩
      intro d hd
      rcases List.mem_cons.mp hd with rfl | hd
      · exact hp
      · exact ha d hd
    · rw [if_neg hp] at h
      cases h

theorem search_eq_none_iff {α : Type} (m : Str → Option α) (s : Str) :
    search m s = none ↔ ∀ t, t <:+ s → m t = none := by
  induction s with
  | nil =>
    constructor
    · intro h t ht
      rw [List.suffix_nil.mp ht]
      exact h
    · intro h
      exact h [] (List.suffix_refl _)
  | cons c cs ih =>
    unfold search
    constructor
    · intro h t ht
      cases hm : m (c :: cs) with
      | some r => rw [hm] at h; cases h
      | none =>
        rw [hm] at h
        rcases List.suffix_cons_iff.mp ht with rfl | ht
        · exact hm
        · exact ih.mp h t ht
    · intro h
      rw [h (c :: cs) (List.suffix_refl _)]
      exact ih.mpr (fun t ht => h t (ht.trans (List.suffix_cons c cs)))

theorem search_head {α : Type} (m : Str → Option α) (t : Str) (r : α) (ht : m t = some r) :
    search m t = some r := by
  cases t with
  | nil => exact ht
  | cons c cs => simp [search, ht]

theorem search_append {α : Type} (m : Str → Option α) (pre t : Str)
    (hpre : ∀ u v, pre = u ++ v → v ≠ [] → m (v ++ t) = none) :
    search m (pre ++ t) = search m t := by
  induction pre with
  | nil => rfl
  | cons c cs ih =>
    have h0 : m (c :: cs ++ t) = none := hpre [] (c :: cs) rfl (by simp)
    have h1 : search m (c :: cs ++ t) = search m (cs ++ t) := by
      show search m (c :: (cs ++ t)) = _
      rw [search]
      rw [List.cons_append] at h0
      rw [h0]
    rw [h1]
    exact ih (fun u v huv hv => hpre (c :: u) v (by rw [huv]; rfl) hv)

theorem matchLit_suffix (pat s r : Str) (h : matchLit pat s = some r) : r <:+ s := by
  induction pat generalizing s with
  | nil =>
    cases s <;> (simp [matchLit] at h; subst h; exact List.suffix_refl _)
  | cons p ps ih =>
    cases s with
    | nil => simp [matchLit] at h
    | cons c cs =>
      simp only [matchLit] at h
      split at h
      · exact (ih cs h).trans (List.suffix_cons c cs)
      · cases h

theorem matchLit_cons_eq_some (p : Nat) (ps s r : Str) (h : matchLit (p :: ps) s = some r) :
    ∃ c cs, s = c :: cs ∧ canon c = canon p ∧ matchLit ps cs = some r := by
  cases s with
  | nil => simp [matchLit] at h
  | cons c cs =>
    simp only [matchLit] at h
    split at h
    · exact ⟨c, cs, rfl, by assumption, h⟩
    · cases h

theorem occursIn_eq_false_iff (pat s : Str) :
    occursIn pat s = false ↔ ∀ t, t <:+ s → matchLit pat t = none := by
  unfold occursIn
  rw [List.any_eq_false]
  constructor
  · intro h t ht
    have := h t ((List.mem_tails t s).mpr ht)
    simpa using this
  · intro h t ht
    rw [h t ((List.mem_tails t s).mp ht)]
    simp

theorem occursIn_eq_true_iff (pat s : Str) :
    occursIn pat s = true ↔ ∃ t, t <:+ s ∧ (matchLit pat t).isSome = true := by
  unfold occursIn
  rw [List.any_eq_true]
  constructor
  · rintro ⟨t, ht, h⟩
    exact ⟨t, (List.mem_tails t s).mp ht, h⟩
  · rintro ⟨t, ht, h⟩
    exact ⟨t, (List.mem_tails t s).mpr ht, h⟩

theorem firstIn_eq_none_iff (pat s : Str) :
    firstIn pat s = none ↔ occursIn pat s = false := by
  rw [occursIn_eq_false_iff]
  induction s with
  | nil =>
    unfold firstIn
    constructor
    · intro h t ht
      rw [List.suffix_nil.mp ht]
      cases hm : matchLit pat [] with
      | none => rfl
      | some r => rw [hm] at h; simp at h
    · intro h
      rw [h [] (List.suffix_refl _)]
      rfl
  | cons c cs ih =>
    unfold firstIn
    constructor
    · intro h t ht
      cases hm : matchLit pat (c :: cs) with
      | some r => rw [hm] at h; simp at h
      | none =>
        rw [hm] at h
        simp only [Option.isSome_none, Bool.false_eq_true, if_false, Option.map_eq_none'] at h
        rcases List.suffix_cons_iff.mp ht with rfl | ht
        · exact hm
        · exact ih.mp h t ht
    · intro h
      rw [h (c :: cs) (List.suffix_refl _)]
      simp only [Option.isSome_none, Bool.false_eq_true, if_false, Option.map_eq_none']
      exact ih.mpr (fun t ht => h t (ht.trans (List.suffix_cons c cs)))

theorem lazyUntil_eq (pat s : Str) : lazyUntil pat s = (firstIn pat s).map (s.take ·) := by
  induction s with
  | nil =>
    unfold lazyUntil firstIn
    split <;> rfl
  | cons c cs ih =>
    unfold lazyUntil firstIn
    split
    · rfl
    · rw [ih]
      cases firstIn pat cs <;> rfl

theorem firstIn_spec (pat s : Str) (j : Nat) (h : firstIn pat s = some j) :
    j ≤ s.length ∧ (matchLit pat (s.drop j)).isSome = true ∧
      ∀ i, i < j → matchLit pat (s.drop i) = none := by
  induction s generalizing j with
  | nil =>
    unfold firstIn at h
    split at h
    · cases h
      refine ⟨Nat.le_refl _, by assumption, ?_⟩
      intro i hi
      cases hi
    · cases h
  | cons c cs ih =>
    unfold firstIn at h
    split at h
    · cases h
      refine ⟨Nat.zero_le _, by assumption, ?_⟩
      intro i hi
      cases hi
    · rename_i hno
      cases hf : firstIn pat cs with
      | none => rw [hf] at h; cases h
      | some j2 =>
        rw [hf] at h
        cases h
        obtain ⟨h1, h2, h3⟩ := ih j2 hf
        refine ⟨Nat.succ_le_succ h1, h2, ?_⟩
        intro i hi
        cases i with
        | zero =>
          cases hm : matchLit pat (c :: cs) with
          | none => exact hm
          | some r => rw [hm] at hno; simp at hno
        | succ i => exact h3 i (Nat.lt_of_succ_lt_succ hi)

/-! ## Sentences -/

theorem sentenceAt_sound (s rest : Str) (h : sentenceAt s = some rest) :
    ∃ a t, s = a ++ t ++ rest ∧ a ≠ [] ∧ t ≠ [] ∧ (∀ c ∈ a, isTerminator c = false) ∧
      (∀ c ∈ t, isTerminator c = true) := by
  obtain ⟨a, b, hab, ha, hna, hk⟩ := greedyPlus_sound _ _ s rest h
  obtain ⟨t, r, htr, ht, hnt, hr⟩ := greedyPlus_sound _ _ b rest hk
  cases hr
  refine ⟨a, t, by rw [hab, htr, List.append_assoc], ha, ht, ?_, hnt⟩
  intro c hc
  simpa using hna c hc

theorem sentencesFrom_mem (n : Nat) (s x : Str) (hx : x ∈ sentencesFrom n s) :
    ∃ a t, x = a ++ t ∧ a ≠ [] ∧ t ≠ [] ∧ (∀ c ∈ a, isTerminator c = false) ∧
      (∀ c ∈ t, isTerminator c = true) := by
  induction s generalizing n with
  | nil => simp [sentencesFrom] at hx
  | cons c cs ih =>
    cases n with
    | succ n =>
      rw [sentencesFrom] at hx
      exact ih n hx
    | zero =>
      rw [sentencesFrom] at hx
      split at hx
      · rename_i rest hrest
        obtain ⟨a, t, hs, ha, ht, hna, hnt⟩ := sentenceAt_sound _ _ hrest
        rcases List.mem_cons.mp hx with hx | hx
        · refine ⟨a, t, ?_, ha, ht, hna, hnt⟩
          rw [hx, hs]
          have hlen : (a ++ t ++ rest).length - rest.length = (a ++ t).length := by
            rw [List.length_append (a ++ t) rest]
            exact Nat.add_sub_cancel _ _
          rw [hlen, List.take_left]
        · exact ih _ hx
      · exact ih _ hx

theorem sentencesFrom_eq_nil (n : Nat) (s : Str) (h : ∀ c ∈ s, isTerminator c = false) :
    sentencesFrom n s = [] := by
  induction s generalizing n with
  | nil => simp [sentencesFrom]
  | cons c cs ih =>
    have hcs : ∀ d ∈ cs, isTerminator d = false := fun d hd => h d (List.mem_cons_of_mem c hd)
    cases n with
    | succ n =>
      rw [sentencesFrom]
      exact ih n hcs
    | zero =>
      rw [sentencesFrom]
      split
      · rename_i rest hrest
        obtain ⟨a, t, hs, _, ht, _, hnt⟩ := sentenceAt_sound _ _ hrest
        obtain ⟨d, ds, rfl⟩ := List.exists_cons_of_ne_nil ht
        have hd : d ∈ c :: cs := by rw [hs]; simp
        have h1 := h d hd
        have h2 := hnt d (List.mem_cons_self d ds)
        rw [h1] at h2
        cases h2
      · exact ih 0 hcs

theorem isWhiteSpace_of_isTerminator (c : Nat) (h : isTerminator c = true) :
    isWhiteSpace c = false := by
  simp only [isTerminator, Bool.or_eq_true, beq_iff_eq] at h
  rcases h with (rfl | rfl) | rfl <;> rfl

/-! ## Which path `parseAIResponse` takes -/

theorem keyPointsAt_isSome (t : Str) :
    (keyPointsAt t).isSome = (matchLit KEY_POINTS t).isSome := by
  unfold keyPointsAt
  cases matchLit KEY_POINTS t with
  | none => rfl
  | some r => simp [greedyStar_some]

theorem keyPointsMatch_eq_none_iff (text : Str) :
    keyPointsMatch text = none ↔ occursIn KEY_POINTS text = false := by
  unfold keyPointsMatch
  rw [search_eq_none_iff, occursIn_eq_false_iff]
  constructor
  · intro h t ht
    have h1 := keyPointsAt_isSome t
    rw [h t ht] at h1
    cases hm : matchLit KEY_POINTS t with
    | none => rfl
    | some r => rw [hm] at h1; cases h1
  · intro h t ht
    have h1 := keyPointsAt_isSome t
    rw [h t ht] at h1
    cases hm : keyPointsAt t with
    | none => rfl
    | some r => rw [hm] at h1; cases h1

theorem summaryAt_sound (t cap : Str) (h : summaryAt t = some cap) :
    ∃ r u, matchLit SUMMARY t = some r ∧ u <:+ r ∧
      (matchLit NL_NL_KEY_POINTS u).isSome = true := by
  unfold summaryAt at h
  cases hm : matchLit SUMMARY t with
  | none => rw [hm] at h; cases h
  | some r =>
    rw [hm] at h
    simp only [Option.some_bind] at h
    obtain ⟨a, b, hab, _, hk⟩ := greedyStar_sound _ _ r cap h
    rw [lazyUntil_eq] at hk
    cases hf : firstIn NL_NL_KEY_POINTS b with
    | none => rw [hf] at hk; cases hk
    | some j =>
      obtain ⟨_, h2, _⟩ := firstIn_spec _ _ _ hf
      refine ⟨r, b.drop j, rfl, ?_, h2⟩
      rw [hab]
      exact (List.drop_suffix j b).trans (List.suffix_append a b)

theorem marker_of_blank_line_marker (u : Str)
    (h : (matchLit NL_NL_KEY_POINTS u).isSome = true) :
    ∃ v, v <:+ u ∧ (matchLit KEY_POINTS v).isSome = true := by
  rw [NL_NL_KEY_POINTS_eq] at h
  cases hm : matchLit (10 :: 10 :: KEY_POINTS) u with
  | none => rw [hm] at h; cases h
  | some r =>
    obtain ⟨c1, u1, rfl, _, h1⟩ := matchLit_cons_eq_some _ _ _ _ hm
    obtain ⟨c2, u2, rfl, _, h2⟩ := matchLit_cons_eq_some _ _ _ _ h1
    refine ⟨u2, ?_, by rw [h2]; rfl⟩
    exact (List.suffix_cons c2 u2).trans (List.suffix_cons c1 _)

theorem keyPointsMatch_of_summaryMatch (text : Str) (h : (summaryMatch text).isSome = true) :
    (keyPointsMatch text).isSome = true := by
  cases hk : keyPointsMatch text with
  | some r => rfl
  | none =>
    exfalso
    rw [keyPointsMatch_eq_none_iff, occursIn_eq_false_iff] at hk
    cases hs : summaryMatch text with
    | none => rw [hs] at h; cases h
    | some cap =>
      have hne : search summaryAt text ≠ none := by
        unfold summaryMatch at hs
        rw [hs]
        simp
      rw [ne_eq, search_eq_none_iff] at hne
      push_neg at hne
      obtain ⟨t, ht, hat⟩ := hne
      cases hc : summaryAt t with
      | none => exact hat hc
      | some cap2 =>
        obtain ⟨r, u, hr, hu, hm⟩ := summaryAt_sound t cap2 hc
        obtain ⟨v, hv, hmv⟩ := marker_of_blank_line_marker u hm
        have hsuf : v <:+ text :=
          hv.trans (hu.trans ((matchLit_suffix _ _ _ hr).trans ht))
        rw [hk v hsuf] at hmv
        cases hmv

theorem parse_fallback (text : Str) (h : occursIn KEY_POINTS text = false) :
    summaryMatch text = none ∧ keyPointsMatch text = none := by
  have hk : keyPointsMatch text = none := (keyPointsMatch_eq_none_iff text).mpr h
  refine ⟨?_, hk⟩
  cases hs : summaryMatch text with
  | none => rfl
  | some cap =>
    have := keyPointsMatch_of_summaryMatch text (by rw [hs]; rfl)
    rw [hk] at this
    cases this

/-- C5: a text without a `KEY POINTS:` marker (in any letter case) gives exactly the
fallback pair: the first five lines joined by spaces and trimmed, and the first five
sentence matches, trimmed; without `.`, `!` or `?` the key points are empty. -/
theorem parseAIResponse_without_marker (text : Str) (h : occursIn KEY_POINTS text = false) :
    parseAIResponse text
      = { summary := trim (join (js " ") ((split (· == 10) text).take 5)),
          keyPoints := ((sentences text).take 5).map trim } ∧
    ((∀ c ∈ text, isTerminator c = false) → (parseAIResponse text).keyPoints = []) := by
  obtain ⟨hs, hk⟩ := parse_fallback text h
  have hp : parseAIResponse text
      = { summary := trim (join (js " ") ((split (· == 10) text).take 5)),
          keyPoints := ((sentences text).take 5).map trim } := by
    simp only [parseAIResponse, parseSummary, parseKeyPoints, hs, hk]
  refine ⟨hp, ?_⟩
  intro hno
  rw [hp]
  simp [sentences, sentencesFrom_eq_nil 0 text hno]

/-- C5 at Scenario B: six lines without markers and without terminal punctuation. -/
theorem parseAIResponse_without_marker_witness :
    parseAIResponse (js "Line1\nLine2\nLine3\nLine4\nLine5\nLine6")
      = { summary := js "Line1 Line2 Line3 Line4 Line5", keyPoints := [] } :=
  (parseAIResponse_without_marker (js "Line1\nLine2\nLine3\nLine4\nLine5\nLine6")
    (by decide)).1.trans (by decide)

/-- C6 as stated fails: on no input does the summary pattern match while the key-points
pattern does not, because the summary pattern itself ends in `\n\nKEY POINTS:`. -/
theorem primary_summary_with_fallback_keyPoints_impossible :
    ¬ ∃ text : Str, (summaryMatch text).isSome = true ∧ (keyPointsMatch text).isNone = true := by
  rintro ⟨text, hs, hk⟩
  have := keyPointsMatch_of_summaryMatch text hs
  cases hm : keyPointsMatch text with
  | none => rw [hm] at this; cases this
  | some r => rw [hm] at hk; cases hk

/-- C6 (as the code has it): the one mixed combination is the fallback summary with
key points taken after the marker, reached for instance on `KEY POINTS:\n- a`; a text
with `SUMMARY:` but without `KEY POINTS:` takes both fallbacks. -/
theorem fallback_selection :
    (∃ text : Str, summaryMatch text = none ∧ (keyPointsMatch text).isSome = true ∧
      parseAIResponse text = { summary := js "KEY POINTS: - a", keyPoints := [js "a"] }) ∧
    (∀ text : Str, occursIn SUMMARY text = true → occursIn KEY_POINTS text = false →
      summaryMatch text = none ∧ keyPointsMatch text = none ∧
      parseAIResponse text
        = { summary := trim (join (js " ") ((split (· == 10) text).take 5)),
            keyPoints := ((sentences text).take 5).map trim }) := by
  refine ⟨⟨js "KEY POINTS:\n- a", by decide, by decide, by decide⟩, ?_⟩
  intro text _ h
  obtain ⟨hs, hk⟩ := parse_fallback text h
  refine ⟨hs, hk, ?_⟩
  simp only [parseAIResponse, parseSummary, parseKeyPoints, hs, hk]

/-- C6 (as the code has it) at `SUMMARY: One. Two!`: both fallbacks are taken. -/
theorem fallback_selection_witness :
    parseAIResponse (js "SUMMARY: One. Two!")
      = { summary := js "SUMMARY: One. Two!", keyPoints := [js "SUMMARY: One.", js "Two!"] } :=
  (fallback_selection.2 (js "SUMMARY: One. Two!") (by decide) (by decide)).2.2.trans (by decide)

/-- C10: every key point returned by `parseAIResponse` is non-empty and has neither
leading nor trailing whitespace, on the marker path and on the sentence path. -/
theorem parseAIResponse_keyPoints_trimmed (text : Str) :
    ∀ k ∈ (parseAIResponse text).keyPoints, k ≠ [] ∧ noOuterSpace k = true := by
  intro k hk
  simp only [parseAIResponse, parseKeyPoints] at hk
  split at hk
  · have hk2 := List.mem_of_mem_take hk
    rw [List.mem_filter, List.mem_map] at hk2
    obtain ⟨⟨l, _, rfl⟩, hne⟩ := hk2
    refine ⟨?_, noOuterSpace_trim _⟩
    intro h0
    rw [h0] at hne
    cases hne
  · rw [List.mem_map] at hk
    obtain ⟨x, hx, rfl⟩ := hk
    refine ⟨?_, noOuterSpace_trim _⟩
    obtain ⟨a, t, rfl, _, ht, _, hnt⟩ := sentencesFrom_mem 0 text x (List.mem_of_mem_take hx)
    have hne : a ++ t ≠ [] := by simp [ht]
    apply trim_ne_nil _ hne
    apply isWhiteSpace_of_isTerminator
    rw [List.getLast_append_of_ne_nil ht]
    exact hnt _ (List.getLast_mem ht)

/-- C10 at a text that takes the sentence path. -/
theorem parseAIResponse_keyPoints_trimmed_witness :
    js "Two!" ∈ (parseAIResponse (js "One.  Two! \n")).keyPoints ∧
    js "Two!" ≠ [] ∧ noOuterSpace (js "Two!") = true :=
  ⟨by decide, parseAIResponse_keyPoints_trimmed (js "One.  Two! \n") (js "Two!") (by decide)⟩

/-! ## The summary pattern -/

theorem occursIn_cons (pat : Str) (c : Nat) (cs : Str) :
    occursIn pat (c :: cs) = ((matchLit pat (c :: cs)).isSome || occursIn pat cs) := by
  simp [occursIn]

theorem occursIn_of_suffix (pat t s : Str) (hts : t <:+ s) (h : occursIn pat t = true) :
    occursIn pat s = true := by
  rw [occursIn_eq_true_iff] at h ⊢
  obtain ⟨u, hu, hm⟩ := h
  exact ⟨u, hu.trans hts, hm⟩

theorem occursIn_of_firstIn (pat s : Str) (j : Nat) (h : firstIn pat s = some j) :
    occursIn pat s = true := by
  cases ho : occursIn pat s with
  | true => rfl
  | false =>
    rw [(firstIn_eq_none_iff pat s).mpr ho] at h
    cases h

theorem greedyStar_lazyUntil (p : Nat → Bool) (pat u : Str) :
    greedyStar p (lazyUntil pat) u =
      match firstIn pat (u.dropWhile p) with
      | some j => some ((u.dropWhile p).take j)
      | none => if occursIn pat u = true then some [] else none := by
  have base : ∀ v : Str, lazyUntil pat v =
      match firstIn pat v with
      | some j => some (v.take j)
      | none => if occursIn pat v = true then some [] else none := by
    intro v
    rw [lazyUntil_eq]
    cases hf : firstIn pat v with
    | some j => rfl
    | none =>
      rw [(firstIn_eq_none_iff pat v).mp hf]
      rfl
  induction u with
  | nil => exact base []
  | cons c cs ih =>
    by_cases hp : p c = true
    · have hd : (c :: cs).dropWhile p = cs.dropWhile p := by
        simp [List.dropWhile_cons, hp]
      rw [hd]
      unfold greedyStar
      rw [if_pos hp, ih]
      cases hf : firstIn pat (cs.dropWhile p) with
      | some j => rfl
      | none =>
        simp only
        rw [occursIn_cons]
        cases ho : occursIn pat cs with
        | true => simp
        | false =>
          simp only [Bool.false_eq_true, if_false, Bool.or_false]
          rw [lazyUntil_eq]
          unfold firstIn
          rw [(firstIn_eq_none_iff pat cs).mpr ho]
          cases (matchLit pat (c :: cs)).isSome <;> rfl
    · have hd : (c :: cs).dropWhile p = c :: cs := by
        simp [List.dropWhile_cons, hp]
      rw [hd]
      unfold greedyStar
      rw [if_neg hp]
      exact base (c :: cs)

theorem greedyStar_lazyUntil_isSome (p : Nat → Bool) (pat u : Str) :
    (greedyStar p (lazyUntil pat) u).isSome = occursIn pat u := by
  rw [greedyStar_lazyUntil]
  cases hf : firstIn pat (u.dropWhile p) with
  | some j =>
    have := occursIn_of_suffix pat _ u (List.dropWhile_suffix p) (occursIn_of_firstIn _ _ _ hf)
    rw [this]
    rfl
  | none =>
    cases occursIn pat u <;> rfl

theorem summaryAt_isSome (t : Str) :
    (summaryAt t).isSome =
      match matchLit SUMMARY t with
      | some r => occursIn NL_NL_KEY_POINTS r
      | none => false := by
  unfold summaryAt
  cases matchLit SUMMARY t with
  | none => rfl
  | some r => exact greedyStar_lazyUntil_isSome _ _ r

theorem summaryMatch_eq_none_iff (text : Str) :
    summaryMatch text = none ↔ summaryPatternIn text = false := by
  unfold summaryMatch summaryPatternIn
  rw [search_eq_none_iff, List.any_eq_false]
  constructor
  · intro h t ht
    have h1 := summaryAt_isSome t
    rw [h t ((List.mem_tails t text).mp ht)] at h1
    rw [← h1]
    simp
  · intro h t ht
    have h1 := summaryAt_isSome t
    have h2 := h t ((List.mem_tails t text).mpr ht)
    cases hs : summaryAt t with
    | none => rfl
    | some cap =>
      rw [hs] at h1
      rw [← h1] at h2
      simp at h2

theorem matchLit_eq_drop (pat s r : Str) (h : matchLit pat s = some r) :
    r = s.drop pat.length := by
  induction pat generalizing s with
  | nil =>
    cases s <;> (simp [matchLit] at h; subst h; rfl)
  | cons p ps ih =>
    obtain ⟨c, cs, rfl, _, hm⟩ := matchLit_cons_eq_some _ _ _ _ h
    exact ih cs hm

theorem drop_suffix_drop (n : Nat) (t s : Str) (h : t <:+ s) : t.drop n <:+ s.drop n := by
  obtain ⟨a, rfl⟩ := h
  have : (a ++ t).drop (a.length + n) = t.drop n := List.drop_append n
  rw [← this]
  exact List.drop_suffix_drop_left _ (Nat.le_add_left n a.length)

theorem summaryMatch_at_first (text : Str) (i : Nat) (hi : firstIn SUMMARY text = some i) :
    summaryMatch text
      = greedyStar isWhiteSpace (lazyUntil NL_NL_KEY_POINTS) (text.drop (i + 8)) := by
  obtain ⟨_, hm, hmin⟩ := firstIn_spec _ _ _ hi
  have hsplit : text = text.take i ++ text.drop i := (List.take_append_drop i text).symm
  have h1 : summaryMatch text = search summaryAt (text.drop i) := by
    unfold summaryMatch
    conv_lhs => rw [hsplit]
    apply search_append
    intro u v huv hv
    have hlen : u.length < i := by
      have h2 : (text.take i).length ≤ i := by
        rw [List.length_take]
        exact Nat.min_le_left _ _
      have h3 : (text.take i).length = u.length + v.length := by rw [huv, List.length_append]
      have h4 : 0 < v.length := List.length_pos.mpr hv
      omega
    have hdrop : v ++ text.drop i = text.drop u.length := by
      conv_rhs => rw [hsplit, huv, List.append_assoc]
      rw [List.drop_left]
    rw [hdrop]
    unfold summaryAt
    rw [hmin _ hlen]
    rfl
  rw [h1]
  cases hr : matchLit SUMMARY (text.drop i) with
  | none => rw [hr] at hm; cases hm
  | some r =>
    have hrd : r = text.drop (i + 8) := by
      rw [matchLit_eq_drop _ _ _ hr, List.drop_drop]
      rfl
    have hat : summaryAt (text.drop i)
        = greedyStar isWhiteSpace (lazyUntil NL_NL_KEY_POINTS) (text.drop (i + 8)) := by
      unfold summaryAt
      rw [hr, hrd]
      rfl
    cases hg : greedyStar isWhiteSpace (lazyUntil NL_NL_KEY_POINTS) (text.drop (i + 8)) with
    | some cap =>
      rw [hg] at hat
      exact search_head _ _ _ hat
    | none =>
      rw [search_eq_none_iff]
      intro t ht
      cases hs : summaryAt t with
      | none => rfl
      | some cap =>
        exfalso
        obtain ⟨r2, u, hr2, hu, hmu⟩ := summaryAt_sound t cap hs
        have h2 : r2 <:+ text.drop (i + 8) := by
          rw [matchLit_eq_drop _ _ _ hr2, ← hrd, matchLit_eq_drop _ _ _ hr]
          exact drop_suffix_drop _ _ _ ht
        have h3 : occursIn NL_NL_KEY_POINTS (text.drop (i + 8)) = true :=
          (occursIn_eq_true_iff _ _).mpr ⟨u, hu.trans h2, hmu⟩
        rw [← greedyStar_lazyUntil_isSome isWhiteSpace, hg] at h3
        cases h3

theorem drop_length_takeWhile (p : Nat → Bool) (s : Str) :
    s.drop (s.takeWhile p).length = s.dropWhile p := by
  conv_lhs => rw [← List.takeWhile_append_dropWhile p s]
  have h : (List.takeWhile p (List.takeWhile p s ++ List.dropWhile p s)) = List.takeWhile p s := by
    rw [List.takeWhile_append_dropWhile]
  rw [h, List.drop_left]

theorem take_length_takeWhile (p : Nat → Bool) (s : Str) :
    s.take (s.takeWhile p).length = s.takeWhile p := by
  conv_lhs => rw [← List.takeWhile_append_dropWhile p s]
  have h : (List.takeWhile p (List.takeWhile p s ++ List.dropWhile p s)) = List.takeWhile p s := by
    rw [List.takeWhile_append_dropWhile]
  rw [h, List.take_left]

theorem capture_eq_between (after cap : Str)
    (hg : greedyStar isWhiteSpace (lazyUntil NL_NL_KEY_POINTS) after = some cap) :
    ∃ j, closingMarker after = some j ∧ trim cap = trim (after.take j) := by
  rw [greedyStar_lazyUntil] at hg
  cases hf : firstIn NL_NL_KEY_POINTS (after.dropWhile isWhiteSpace) with
  | some j0 =>
    rw [hf] at hg
    cases hg
    refine ⟨(after.takeWhile isWhiteSpace).length + j0, ?_, ?_⟩
    · unfold closingMarker
      simp only [drop_length_takeWhile, hf]
    · rw [List.take_add, take_length_takeWhile, drop_length_takeWhile]
      exact (trim_append_left _ _ (fun c hc => List.mem_takeWhile_imp hc)).symm
  | none =>
    rw [hf] at hg
    simp only at hg
    cases ho : occursIn NL_NL_KEY_POINTS after with
    | false => rw [ho] at hg; simp at hg
    | true =>
      rw [ho] at hg
      simp only [if_true] at hg
      cases hg
      cases hj : firstIn NL_NL_KEY_POINTS after with
      | none =>
        rw [(firstIn_eq_none_iff _ _).mp hj] at ho
        cases ho
      | some j =>
        refine ⟨j, ?_, ?_⟩
        · unfold closingMarker
          simp only [drop_length_takeWhile, hf, hj]
        · obtain ⟨_, hm, _⟩ := firstIn_spec _ _ _ hj
          have hlt : j < (after.takeWhile isWhiteSpace).length := by
            by_contra hge
            have hge2 : (after.takeWhile isWhiteSpace).length ≤ j := Nat.le_of_not_lt hge
            have hsuf : after.drop j <:+ after.dropWhile isWhiteSpace := by
              rw [← drop_length_takeWhile]
              exact List.drop_suffix_drop_left _ hge2
            have hocc : occursIn NL_NL_KEY_POINTS (after.dropWhile isWhiteSpace) = true :=
              (occursIn_eq_true_iff _ _).mpr ⟨_, hsuf, hm⟩
            rw [(firstIn_eq_none_iff _ _).mp hf] at hocc
            cases hocc
          have hpre : after.take j <+: after.takeWhile isWhiteSpace := by
            rw [← take_length_takeWhile]
            exact List.take_prefix_take_left _ (Nat.le_of_lt hlt)
          have hall : ∀ c ∈ after.take j, isWhiteSpace c = true :=
            fun c hc => List.mem_takeWhile_imp (hpre.subset hc)
          rw [trim_eq_nil_of_all _ hall]
          rfl

theorem firstIn_of_summaryPatternIn (text : Str) (h : summaryPatternIn text = true) :
    ∃ i, firstIn SUMMARY text = some i := by
  unfold summaryPatternIn at h
  rw [List.any_eq_true] at h
  obtain ⟨t, ht, hm⟩ := h
  cases hf : firstIn SUMMARY text with
  | some i => exact ⟨i, rfl⟩
  | none =>
    exfalso
    rw [firstIn_eq_none_iff, occursIn_eq_false_iff] at hf
    rw [hf t ((List.mem_tails t text).mp ht)] at hm
    cases hm

/-- C4 (as the code has it): when `SUMMARY:` is followed somewhere by `\n\nKEY POINTS:`,
the summary is the trimmed text between the first `SUMMARY:` and the closing
`\n\nKEY POINTS:` (the first one at or after the first non-whitespace code unit that
follows `SUMMARY:`, else the first one at all); otherwise, and only then, it is the
first five lines joined by spaces and trimmed. -/
theorem parseAIResponse_summary (text : Str) :
    (summaryPatternIn text = true →
      ∃ i j, firstIn SUMMARY text = some i ∧ closingMarker (text.drop (i + 8)) = some j ∧
        (parseAIResponse text).summary = trim ((text.drop (i + 8)).take j)) ∧
    (summaryPatternIn text = false →
      (parseAIResponse text).summary = trim (join (js " ") ((split (· == 10) text).take 5))) ∧
    (summaryMatch text = none ↔ summaryPatternIn text = false) := by
  refine ⟨?_, ?_, summaryMatch_eq_none_iff text⟩
  · intro h
    obtain ⟨i, hi⟩ := firstIn_of_summaryPatternIn text h
    cases hs : summaryMatch text with
    | none =>
      rw [(summaryMatch_eq_none_iff text).mp hs] at h
      cases h
    | some cap =>
      have hg := summaryMatch_at_first text i hi
      rw [hs] at hg
      obtain ⟨j, hj, htrim⟩ := capture_eq_between _ cap hg.symm
      refine ⟨i, j, hi, hj, ?_⟩
      simp only [parseAIResponse, parseSummary, hs]
      exact htrim
  · intro h
    have hs := (summaryMatch_eq_none_iff text).mpr h
    simp only [parseAIResponse, parseSummary, hs]

/-- C4 as stated fails on its own example: one line break before `KEY POINTS:` is not
the blank line that the pattern requires, so the summary is the fallback one. -/
theorem summary_single_newline_counterexample :
    occursIn SUMMARY (js "SUMMARY: foo\nKEY POINTS:\n- a") = true ∧
    occursIn KEY_POINTS (js "SUMMARY: foo\nKEY POINTS:\n- a") = true ∧
    (parseAIResponse (js "SUMMARY: foo\nKEY POINTS:\n- a")).summary
      = js "SUMMARY: foo KEY POINTS: - a" ∧
    (parseAIResponse (js "SUMMARY: foo\nKEY POINTS:\n- a")).summary ≠ js "foo" := by
  decide

/-- C4 (as the code has it) at texts with the blank line: the example with two line
breaks gives `foo`, and a marker inside the whitespace after `SUMMARY:` is passed over
when a later one exists. -/
theorem parseAIResponse_summary_witness :
    (∃ i j, firstIn SUMMARY (js "SUMMARY: foo\n\nKEY POINTS:\n- a") = some i ∧
      closingMarker ((js "SUMMARY: foo\n\nKEY POINTS:\n- a").drop (i + 8)) = some j ∧
      (parseAIResponse (js "SUMMARY: foo\n\nKEY POINTS:\n- a")).summary
        = trim (((js "SUMMARY: foo\n\nKEY POINTS:\n- a").drop (i + 8)).take j)) ∧
    (parseAIResponse (js "SUMMARY: foo\n\nKEY POINTS:\n- a")).summary = js "foo" :=
  ⟨(parseAIResponse_summary (js "SUMMARY: foo\n\nKEY POINTS:\n- a")).1 (by decide), by decide⟩

theorem summary_marker_in_whitespace :
    (parseAIResponse (js "SUMMARY:\n\nKEY POINTS: x\n\nKEY POINTS:")).summary
      = js "KEY POINTS: x" ∧
    (parseAIResponse (js "SUMMARY:\n\nKEY POINTS:")).summary = js "" := by
  decide

/-! ## Well-formed provider text -/

theorem matchLit_self_append (pat r : Str) : matchLit pat (pat ++ r) = some r := by
  induction pat with
  | nil => cases r <;> rfl
  | cons p ps ih => simp [matchLit, ih]

theorem matchLit_append_cons (pat a : Str) (d : Nat) (b r : Str)
    (h : matchLit pat (a ++ d :: b) = some r) :
    (matchLit pat a).isSome = true ∨ canon d ∈ pat.map canon := by
  induction pat generalizing a with
  | nil => left; cases a <;> rfl
  | cons p ps ih =>
    cases a with
    | nil =>
      obtain ⟨c, cs, hc, hcan, _⟩ := matchLit_cons_eq_some _ _ _ _ h
      simp only [List.nil_append, List.cons.injEq] at hc
      right
      rw [hc.1, hcan]
      simp
    | cons c cs =>
      obtain ⟨c2, cs2, hc, hcan, hm⟩ := matchLit_cons_eq_some _ _ _ _ h
      simp only [List.cons_append, List.cons.injEq] at hc
      obtain ⟨rfl, rfl⟩ := hc
      rcases ih cs hm with h1 | h1
      · left
        simp only [matchLit, hcan, if_true]
        exact h1
      · right
        simp only [List.map_cons, List.mem_cons]
        exact Or.inr h1

theorem matchLit_head_ne (p : Nat) (ps : Str) (c : Nat) (cs : Str) (h : canon c ≠ canon p) :
    matchLit (p :: ps) (c :: cs) = none := by
  simp [matchLit, h]

theorem firstIn_head (pat s : Str) (h : (matchLit pat s).isSome = true) :
    firstIn pat s = some 0 := by
  cases s with
  | nil => simp [firstIn, h]
  | cons c cs => simp [firstIn, h]

theorem firstIn_append (pat s t : Str)
    (hpre : ∀ u v, s = u ++ v → v ≠ [] → matchLit pat (v ++ t) = none)
    (ht : (matchLit pat t).isSome = true) : firstIn pat (s ++ t) = some s.length := by
  induction s with
  | nil => exact firstIn_head pat t ht
  | cons c cs ih =>
    have h0 : matchLit pat (c :: (cs ++ t)) = none := hpre [] (c :: cs) rfl (by simp)
    have h1 := ih (fun u v huv hv => hpre (c :: u) v (by rw [huv]; rfl) hv)
    show firstIn pat (c :: (cs ++ t)) = _
    unfold firstIn
    rw [h0, h1]
    rfl

theorem split_no_sep (isSep : Nat → Bool) (l : Str) (h : ∀ c ∈ l, isSep c = false) :
    split isSep l = [l] := by
  induction l with
  | nil => rfl
  | cons c cs ih =>
    have hc : isSep c = false := h c (List.mem_cons_self c cs)
    have hcs := ih (fun d hd => h d (List.mem_cons_of_mem c hd))
    simp [split, hc, hcs]

theorem split_append_sep (isSep : Nat → Bool) (l : Str) (d : Nat) (rest : Str)
    (h : ∀ c ∈ l, isSep c = false) (hd : isSep d = true) :
    split isSep (l ++ d :: rest) = l :: split isSep rest := by
  induction l with
  | nil => simp [split, hd]
  | cons c cs ih =>
    have hc : isSep c = false := h c (List.mem_cons_self c cs)
    have hcs := ih (fun e he => h e (List.mem_cons_of_mem c he))
    simp [split, hc, hcs]

theorem join_singleton (sep l : Str) : join sep [l] = l := by
  simp [join, List.intercalate]

theorem join_cons_cons (sep l l2 : Str) (ls : List Str) :
    join sep (l :: l2 :: ls) = l ++ (sep ++ join sep (l2 :: ls)) := by
  simp [join, List.intercalate]

theorem split_join (isSep : Nat → Bool) (d : Nat) (ls : List Str) (hne : ls ≠ [])
    (h : ∀ l ∈ ls, ∀ c ∈ l, isSep c = false) (hd : isSep d = true) :
    split isSep (join [d] ls) = ls := by
  induction ls with
  | nil => exact absurd rfl hne
  | cons l rest ih =>
    cases rest with
    | nil =>
      rw [join_singleton]
      exact split_no_sep isSep l (h l (List.mem_cons_self l []))
    | cons l2 rest2 =>
      rw [join_cons_cons]
      show split isSep (l ++ d :: join [d] (l2 :: rest2)) = _
      rw [split_append_sep isSep l d _ (h l (List.mem_cons_self l _)) hd]
      rw [ih (by simp) (fun m hm => h m (List.mem_cons_of_mem l hm))]

theorem stripBullet_bullet (p : Str) : stripBullet (45 :: 32 :: p) = p := by
  have h45 : isWhiteSpace 45 = false := by decide
  have h32 : isWhiteSpace 32 = true := by decide
  simp [stripBullet, bulletAt, greedyStar, h45, h32]

theorem canon_newline_not_in_KEY_POINTS : canon 10 ∉ KEY_POINTS.map canon := by decide

theorem keyPointsAt_head_ne (c : Nat) (cs : Str) (h : canon c ≠ 75) :
    keyPointsAt (c :: cs) = none := by
  unfold keyPointsAt
  rw [KEY_POINTS_eq, matchLit_head_ne _ _ _ _ (by simpa [canon] using h)]
  rfl

theorem search_keyPointsAt_skip (a t : Str) (h : ∀ c ∈ a, canon c ≠ 75) :
    search keyPointsAt (a ++ t) = search keyPointsAt t := by
  apply search_append
  intro u v huv hv
  obtain ⟨d, ds, rfl⟩ := List.exists_cons_of_ne_nil hv
  have hd : d ∈ a := by rw [huv]; simp
  exact keyPointsAt_head_ne d _ (h d hd)

theorem search_keyPointsAt_skip_summary (s t : Str) (hkp : occursIn KEY_POINTS s = false) :
    search keyPointsAt (s ++ 10 :: t) = search keyPointsAt (10 :: t) := by
  apply search_append
  intro u v huv _
  rw [occursIn_eq_false_iff] at hkp
  have hv : matchLit KEY_POINTS v = none := hkp v ⟨u, huv.symm⟩
  unfold keyPointsAt
  cases hm : matchLit KEY_POINTS (v ++ 10 :: t) with
  | none => rfl
  | some r =>
    exfalso
    rcases matchLit_append_cons _ _ _ _ _ hm with h1 | h1
    · rw [hv] at h1; cases h1
    · exact canon_newline_not_in_KEY_POINTS h1

theorem canon_eq_newline (c : Nat) (h : canon c = canon 10) : c = 10 := by
  unfold canon at h
  split at h
  · simp at h; omega
  · simpa using h

theorem no_marker_inside_summary (s t : Str) (hsp : noOuterSpace s = true)
    (hkp : occursIn KEY_POINTS s = false) (u v : Str) (huv : s = u ++ v) (hv : v ≠ []) :
    matchLit NL_NL_KEY_POINTS (v ++ 10 :: t) = none := by
  cases hm : matchLit NL_NL_KEY_POINTS (v ++ 10 :: t) with
  | none => rfl
  | some r =>
    exfalso
    rw [NL_NL_KEY_POINTS_eq] at hm
    obtain ⟨c1, v1, rfl⟩ := List.exists_cons_of_ne_nil hv
    obtain ⟨c, cs, hc, hcan, hm1⟩ := matchLit_cons_eq_some _ _ _ _ hm
    simp only [List.cons_append, List.cons.injEq] at hc
    obtain ⟨rfl, rfl⟩ := hc
    have hc10 : c1 = 10 := canon_eq_newline c1 hcan
    cases v1 with
    | nil =>
      rw [noOuterSpace_iff] at hsp
      have hlast : s.getLast? = some c1 := by rw [huv]; simp
      have := hsp.2 c1 hlast
      rw [hc10] at this
      revert this
      decide
    | cons c2 v2 =>
      obtain ⟨c, cs, hc, _, hm2⟩ := matchLit_cons_eq_some _ _ _ _ hm1
      simp only [List.cons_append, List.cons.injEq] at hc
      obtain ⟨rfl, rfl⟩ := hc
      rw [occursIn_eq_false_iff] at hkp
      have hv2 : matchLit KEY_POINTS v2 = none :=
        hkp v2 ⟨u ++ [c1, c2], by rw [huv]; simp⟩
      rcases matchLit_append_cons _ _ _ _ _ hm2 with h1 | h1
      · rw [hv2] at h1; cases h1
      · exact canon_newline_not_in_KEY_POINTS h1

theorem wellFormed_eq (s : Str) (points : List Str) :
    wellFormed s points
      = SUMMARY ++ 10 :: (s ++ 10 :: 10 :: (KEY_POINTS
          ++ 10 :: join [10] (points.map (fun p => 45 :: 32 :: p)))) := by
  have h1 : js "SUMMARY:\n" = SUMMARY ++ [10] := by decide
  have h2 : js "\n\nKEY POINTS:\n" = 10 :: 10 :: (KEY_POINTS ++ [10]) := by decide
  have h3 : js "\n" = [10] := by decide
  have h4 : js "- " = [45, 32] := by decide
  unfold wellFormed
  rw [h1, h2, h3, h4]
  simp

theorem summaryMatch_wellFormed (s body : Str) (hs : s ≠ []) (hsp : noOuterSpace s = true)
    (hkp : occursIn KEY_POINTS s = false) :
    summaryMatch (SUMMARY ++ 10 :: (s ++ 10 :: 10 :: (KEY_POINTS ++ body))) = some s := by
  have hi : firstIn SUMMARY (SUMMARY ++ 10 :: (s ++ 10 :: 10 :: (KEY_POINTS ++ body))) = some 0 :=
    firstIn_head _ _ (by rw [matchLit_self_append]; rfl)
  rw [summaryMatch_at_first _ 0 hi]
  have hlen : SUMMARY.length = 0 + 8 := by decide
  rw [List.drop_left' hlen, greedyStar_lazyUntil]
  obtain ⟨c, cs, rfl⟩ := List.exists_cons_of_ne_nil hs
  have hc : isWhiteSpace c = false := ((noOuterSpace_iff _).mp hsp).1 c rfl
  have h10 : isWhiteSpace 10 = true := by decide
  have hd : (10 :: (c :: cs ++ 10 :: 10 :: (KEY_POINTS ++ body))).dropWhile isWhiteSpace
      = (c :: cs) ++ 10 :: 10 :: (KEY_POINTS ++ body) := by
    simp [List.dropWhile_cons, h10, hc]
  have hY : (10 :: 10 :: (KEY_POINTS ++ body)) = NL_NL_KEY_POINTS ++ body := by
    rw [NL_NL_KEY_POINTS_eq]; rfl
  have hf : firstIn NL_NL_KEY_POINTS ((c :: cs) ++ 10 :: 10 :: (KEY_POINTS ++ body))
      = some (c :: cs).length := by
    apply firstIn_append
    · exact no_marker_inside_summary (c :: cs) _ hsp hkp
    · rw [hY, matchLit_self_append]; rfl
  rw [hd, hf]
  simp only [List.take_left]

theorem keyPointsMatch_wellFormed (s body : Str) (hkp : occursIn KEY_POINTS s = false) :
    keyPointsMatch (SUMMARY ++ 10 :: (s ++ 10 :: 10 :: (KEY_POINTS ++ body)))
      = some (body.dropWhile isWhiteSpace) := by
  unfold keyPointsMatch
  have e1 : SUMMARY ++ 10 :: (s ++ 10 :: 10 :: (KEY_POINTS ++ body))
      = (SUMMARY ++ [10]) ++ (s ++ 10 :: 10 :: (KEY_POINTS ++ body)) := by simp
  have e2 : (10 :: 10 :: (KEY_POINTS ++ body)) = [10, 10] ++ (KEY_POINTS ++ body) := rfl
  rw [e1, search_keyPointsAt_skip _ _ (by decide), search_keyPointsAt_skip_summary _ _ hkp, e2,
    search_keyPointsAt_skip _ _ (by decide)]
  apply search_head
  unfold keyPointsAt
  rw [matchLit_self_append]
  exact greedyStar_some _ _

theorem dropWhile_bullets (p : Str) (ps : List Str) :
    (10 :: join [10] ((p :: ps).map (fun q => 45 :: 32 :: q))).dropWhile isWhiteSpace
      = join [10] ((p :: ps).map (fun q => 45 :: 32 :: q)) := by
  have h10 : isWhiteSpace 10 = true := by decide
  have h45 : isWhiteSpace 45 = false := by decide
  cases ps with
  | nil => simp [join_singleton, List.dropWhile_cons, h10, h45]
  | cons p2 ps2 =>
    simp only [List.map_cons, join_cons_cons]
    simp [List.dropWhile_cons, h10, h45]

theorem lines_of_bullets (points : List Str) (hne : points ≠ [])
    (hp : ∀ p ∈ points, p ≠ [] ∧ noOuterSpace p = true ∧ ∀ c ∈ p, c ≠ 10 ∧ c ≠ 13) :
    ((split (fun c => c == 10 || c == 13)
        (join [10] (points.map (fun q => 45 :: 32 :: q)))).map
      (fun l => trim (stripBullet l))).filter (fun l => !l.isEmpty) = points := by
  rw [split_join _ 10 _ (by simpa using hne) _ (by decide)]
  · rw [List.map_map]
    have hmap : points.map ((fun l => trim (stripBullet l)) ∘ (fun q => 45 :: 32 :: q)) = points := by
      conv_rhs => rw [← List.map_id points]
      apply List.map_congr_left
      intro q hq
      simp only [Function.comp, stripBullet_bullet, id]
      exact trim_eq_self q (hp q hq).2.1
    rw [hmap, List.filter_eq_self]
    intro q hq
    have := (hp q hq).1
    cases q with
    | nil => exact absurd rfl this
    | cons c cs => rfl
  · intro l hl c hc
    rw [List.mem_map] at hl
    obtain ⟨q, hq, rfl⟩ := hl
    have h3 := (hp q hq).2.2
    simp only [List.mem_cons] at hc
    rcases hc with rfl | rfl | hc
    · rfl
    · rfl
    · have := h3 c hc
      simp [this.1, this.2]

/-- C3: provider text in the requested format parses back to its parts: the summary
`s` and the first five points in order, for every summary without outer whitespace
and without `KEY POINTS:`, and all one-line points without outer whitespace. -/
theorem parseAIResponse_wellFormed (s : Str) (points : List Str)
    (hs : s ≠ []) (hsp : noOuterSpace s = true) (hkp : occursIn KEY_POINTS s = false)
    (hp : ∀ p ∈ points, p ≠ [] ∧ noOuterSpace p = true ∧ ∀ c ∈ p, c ≠ 10 ∧ c ≠ 13) :
    parseAIResponse (wellFormed s points) = { summary := s, keyPoints := points.take 5 } := by
  rw [wellFormed_eq]
  have hsum := summaryMatch_wellFormed s
    (10 :: join [10] (points.map (fun p => 45 :: 32 :: p))) hs hsp hkp
  have hkey := keyPointsMatch_wellFormed s
    (10 :: join [10] (points.map (fun p => 45 :: 32 :: p))) hkp
  simp only [parseAIResponse, parseSummary, parseKeyPoints, hsum, hkey, trim_eq_self s hsp]
  congr 1
  cases points with
  | nil => decide
  | cons p ps =>
    rw [dropWhile_bullets, lines_of_bullets (p :: ps) (by simp) hp]

/-- C3 at Scenario A. -/
theorem parseAIResponse_wellFormed_witness :
    parseAIResponse (js "SUMMARY:\nThis document covers X and Y.\n\nKEY POINTS:\n- Point one\n- Point two\n- Point three")
      = { summary := js "This document covers X and Y.",
          keyPoints := [js "Point one", js "Point two", js "Point three"] } :=
  have h : wellFormed (js "This document covers X and Y.")
        [js "Point one", js "Point two", js "Point three"]
      = js "SUMMARY:\nThis document covers X and Y.\n\nKEY POINTS:\n- Point one\n- Point two\n- Point three" := by
    decide
  h ▸ parseAIResponse_wellFormed (js "This document covers X and Y.")
    [js "Point one", js "Point two", js "Point three"] (by decide) (by decide) (by decide)
    (by decide)

/-! ## Further checks of the embedding -/

theorem greedyStar_eq_of_fails {α : Type} (p : Nat → Bool) (k : Str → Option α)
    (hk : ∀ c cs, p c = true → k (c :: cs) = none) (s : Str) :
    greedyStar p k s = k (s.dropWhile p) := by
  induction s with
  | nil => rfl
  | cons c cs ih =>
    by_cases hp : p c = true
    · have hd : (c :: cs).dropWhile p = cs.dropWhile p := by simp [List.dropWhile_cons, hp]
      rw [hd]
      unfold greedyStar
      rw [if_pos hp, ih, hk c cs hp]
      cases k (cs.dropWhile p) <;> rfl
    · have hd : (c :: cs).dropWhile p = c :: cs := by simp [List.dropWhile_cons, hp]
      rw [hd]
      unfold greedyStar
      rw [if_neg hp]

/-- The sentence pattern takes the longest run of non-terminators and then the longest
run of terminators; both runs must be non-empty. -/
theorem sentenceAt_eq (s : Str) :
    sentenceAt s =
      if s.takeWhile (fun c => !isTerminator c) ≠ [] ∧
          (s.dropWhile (fun c => !isTerminator c)).takeWhile isTerminator ≠ [] then
        some ((s.dropWhile (fun c => !isTerminator c)).dropWhile isTerminator)
      else none := by
  have hplus : ∀ x : Str, greedyPlus isTerminator some x =
      if x.takeWhile isTerminator ≠ [] then some (x.dropWhile isTerminator) else none := by
    intro x
    cases x with
    | nil => rfl
    | cons d ds =>
      by_cases hd : isTerminator d = true
      · simp [greedyPlus, hd, greedyStar_some, List.takeWhile_cons, List.dropWhile_cons]
      · simp [greedyPlus, hd, List.takeWhile_cons]
  have hfail : ∀ c cs, (fun c => !isTerminator c) c = true →
      greedyPlus isTerminator some (c :: cs) = none := by
    intro c cs hc
    have : isTerminator c = false := by simpa using hc
    simp [greedyPlus, this]
  unfold sentenceAt
  cases s with
  | nil => rfl
  | cons c cs =>
    by_cases hc : isTerminator c = true
    · simp [greedyPlus, hc, List.takeWhile_cons]
    · have hc2 : isTerminator c = false := by simpa using hc
      have h1 : greedyPlus (fun c => !isTerminator c) (greedyPlus isTerminator some) (c :: cs)
          = greedyPlus isTerminator some (cs.dropWhile (fun c => !isTerminator c)) := by
        simp only [greedyPlus, hc2, Bool.not_false, if_true]
        exact greedyStar_eq_of_fails _ _ hfail cs
      rw [h1, hplus]
      simp [List.takeWhile_cons, List.dropWhile_cons, hc2]

theorem sentences_example :
    sentences (js "Hello world. How are you?! fine\nand. you")
      = [js "Hello world.", js " How are you?!", js " fine\nand."] := by
  decide

theorem parseAIResponse_six_points :
    parseAIResponse (js "summary:\nS\n\nkey points:\n- a\n- b\n- c\n- d\n- e\n- f")
      = { summary := js "S", keyPoints := [js "a", js "b", js "c", js "d", js "e"] } := by
  decide

theorem onSummarize_page_error :
    (onSummarize extractionFailure (some (js "QQ==")) (js "en")).1
      = [PageEvent.setError (js ""), PageEvent.setLoading true, PageEvent.setSummary (js ""),
         PageEvent.setKeyPoints [], PageEvent.fetch (some (js "QQ==")) (js "en"),
         PageEvent.consoleError (newError (js "Could not extract text from PDF")),
         PageEvent.setError (js "Could not extract text from PDF"),
         PageEvent.setLoading false] := by
  decide

end PdfSummarizer
